import Mathlib

/-!
Verification development for the FYPLACE place-retrieval engine.

The definitions below are a shallow embedding of the Python sources
`backend/app/api/routes.py` (response cache), `backend/app/services/overpass.py`
(query construction, mirror failover, record normalisation, distance filter,
deduplication, email discovery) and `backend/app/core/config.py`
(category table).  Python floats are modelled as exact rationals (`ℚ`) for
data that is stored and compared structurally, and as real numbers (`ℝ`)
inside the trigonometric haversine computation.  HTTP calls are modelled as
oracle functions passed explicitly.
-/

/-- Python truthiness of an optional string: `None` and `""` are falsy. -/
def truthyOptStr : Option String → Bool
  | none => false
  | some s => s ≠ ""

/-- Python `a or b` on optional strings (falls through on `None` and `""`). -/
def pyOrStr (a b : Option String) : Option String :=
  match a with
  | none => b
  | some s => if s = "" then b else some s

/-- Floor of a rational as an integer. -/
def qfloor (q : ℚ) : ℤ :=
  ⌊q⌋

/-- Round-half-to-even to the nearest integer, the rounding used by Python's
built-in `round`. -/
def roundHalfEvenQ (q : ℚ) : ℤ :=
  let f := qfloor q
  let frac := q - (f : ℚ)
  if frac < 1/2 then f
  else if 1/2 < frac then f + 1
  else if f % 2 = 0 then f else f + 1

/-- Python `round(x, 5)` modelled on exact rationals. -/
def round5 (q : ℚ) : ℚ :=
  (roundHalfEvenQ (q * 100000) : ℚ) / 100000

/-- Python `round(x, 6)` modelled on exact rationals. -/
def round6 (q : ℚ) : ℚ :=
  (roundHalfEvenQ (q * 1000000) : ℚ) / 1000000

/-- A raw Overpass element (`type`, `id`, optional point coordinates, optional
`center` coordinates for area features, and the tag map). -/
structure Element where
  etype : Option String
  eid : Option ℤ
  elat : Option ℚ
  elon : Option ℚ
  center : Option (Option ℚ × Option ℚ)
  tags : List (String × String)
deriving DecidableEq, Repr

/-- The normalised place record produced by `normalize_record`.  The
`source_tags` field (Python: `json.dumps(tags)`) is modelled as the tag list
itself, serialisation being injective and opaque downstream. -/
structure PlaceRec where
  osm_id : String
  category : String
  name : Option String
  phone : Option String
  email : Option String
  website : Option String
  address : String
  lat : Option ℚ
  lon : Option ℚ
  source_tags : List (String × String)
deriving DecidableEq, Repr

/-- `tags.get(k)` on the (unique-keyed) tag map. -/
def tagGet (tags : List (String × String)) (k : String) : Option String :=
  (tags.find? (fun p => p.1 = k)).map (·.2)

/-- The address-component tag keys, in the order the source joins them. -/
def addrKeys : List String :=
  ["addr:housenumber", "addr:street", "addr:city", "addr:postcode", "addr:state"]

/-- Python `str.strip(", ")`: remove any leading/trailing commas and spaces. -/
def stripCommaSpace (s : String) : String :=
  let isStrip := fun c => c = ',' || c = ' '
  String.mk (((s.toList.dropWhile isStrip).reverse.dropWhile isStrip).reverse)

/-- `normalize_record` from `overpass.py`: convert an Overpass element into a
`PlaceRec` for the given category. -/
def normalizeRecord (el : Element) (category : String) : PlaceRec :=
  let tags := el.tags
  let phone := pyOrStr (tagGet tags "contact:phone") (tagGet tags "phone")
  let email := pyOrStr (tagGet tags "contact:email") (tagGet tags "email")
  let website :=
    pyOrStr (pyOrStr (tagGet tags "contact:website") (tagGet tags "website")) (tagGet tags "url")
  let coords :=
    if el.elat.isSome && el.elon.isSome then (el.elat, el.elon)
    else match el.center with
      | some c => c
      | none => (none, none)
  let parts := addrKeys.filterMap (fun k =>
    match tagGet tags k with
    | some s => if s = "" then none else some s
    | none => none)
  let addr := stripCommaSpace (String.intercalate ", " parts)
  { osm_id := (el.etype.getD "") ++ "/" ++ (match el.eid with | some i => toString i | none => "")
    category := category
    name := tagGet tags "name"
    phone := phone
    email := email
    website := website
    address := addr
    lat := coords.1
    lon := coords.2
    source_tags := tags }

/-! ## Deduplication (`dedupe` in `overpass.py`) -/

/-- The identity key `(name, round(lat or 0, 6), round(lon or 0, 6))`.
An absent coordinate is treated as `0` (Python `rec.get("lat") or 0`; note a
present `0.0` is also falsy in Python but yields the same value `0`). -/
def dedupeKey (r : PlaceRec) : Option String × ℚ × ℚ :=
  (r.name, round6 (r.lat.getD 0), round6 (r.lon.getD 0))

/-- Worker for `dedupe`, carrying the set of already-seen keys. -/
def dedupeAux : List PlaceRec → List (Option String × ℚ × ℚ) → List PlaceRec
  | [], _ => []
  | r :: rest, seen =>
      if dedupeKey r ∈ seen then dedupeAux rest seen
      else r :: dedupeAux rest (dedupeKey r :: seen)

/-- `dedupe`: keep the first-seen record of each identity key. -/
def dedupe (recs : List PlaceRec) : List PlaceRec :=
  dedupeAux recs []

/-! ## Response cache (`routes.py`) -/

/-- The cache key type: rounded coordinates, radius, sorted categories,
enrichment flag. -/
abbrev CacheKey : Type :=
  ℚ × ℚ × ℤ × List String × Bool

/-- `_make_cache_key(lat, lon, radius_m, categories, with_email)`: rounds the
coordinates to 5 decimal places and sorts the category list (Python `sorted`,
a stable comparison sort; no deduplication is performed). -/
def makeCacheKey (lat lon : ℚ) (radius_m : ℤ) (categories : List String)
    (withEmail : Bool) : CacheKey :=
  (round5 lat, round5 lon, radius_m, List.insertionSort (· ≤ ·) categories, withEmail)

/-- A cached search response: label, results, absolute expiry time. -/
structure CacheEntry where
  label : String
  results : List PlaceRec
  expiresAt : ℚ
deriving DecidableEq, Repr

/-- The cache state: an association list in recency order, least-recently-used
first (the front of a Python `OrderedDict`). -/
abbrev SearchCache : Type :=
  List (CacheKey × CacheEntry)

/-- Dictionary lookup by key (keys are unique in an `OrderedDict`). -/
def lookupEntry : SearchCache → CacheKey → Option CacheEntry
  | [], _ => none
  | x :: xs, k => if x.1 = k then some x.2 else lookupEntry xs k

/-- Remove the binding for `k` (`del cache[key]`). -/
def eraseKey : SearchCache → CacheKey → SearchCache
  | [], _ => []
  | x :: xs, k => if x.1 = k then eraseKey xs k else x :: eraseKey xs k

/-- `_get_cached_response(key)` at time `now`: returns the hit (a deep copy,
modelled by value semantics) and the updated cache state.  A present but
expired entry is deleted and reported as a miss; a hit is moved to
most-recently-used. -/
def getCached (c : SearchCache) (k : CacheKey) (now : ℚ) :
    Option (String × List PlaceRec) × SearchCache :=
  match lookupEntry c k with
  | none => (none, c)
  | some e =>
      if e.expiresAt < now then (none, eraseKey c k)
      else (some (e.label, e.results), eraseKey c k ++ [(k, e)])

/-- The eviction loop: `while len(cache) > max_entries: popitem(last=False)`. -/
def evictLRU : SearchCache → ℕ → SearchCache
  | [], _ => []
  | x :: xs, m => if m < (x :: xs).length then evictLRU xs m else x :: xs

/-- `_store_cached_response(key, label, results, ttl_seconds, max_entries)` at
time `now`: no-op when `ttl ≤ 0`; otherwise store with
`expires_at = now + ttl`, mark most-recently-used, then evict from the
least-recently-used end while the size exceeds `max_entries`. -/
def storeCached (c : SearchCache) (k : CacheKey) (label : String)
    (results : List PlaceRec) (now : ℚ) (ttl : ℤ) (maxEntries : ℕ) : SearchCache :=
  if ttl ≤ 0 then c
  else evictLRU (eraseKey c k ++ [(k, ⟨label, results, now + (ttl : ℚ)⟩)]) maxEntries

/-! ## Mirror failover (`call_overpass` in `overpass.py`) -/

/-- The parsed body of a successful Overpass response
(`data.get("elements", [])`). -/
structure OvData where
  elements : List Element
deriving DecidableEq, Repr

/-- The outcome of one HTTP attempt against one mirror: a parsed success, an
HTTP 429 rate-limit response, or any other failure (network error, non-2xx
status, malformed body). -/
inductive AttemptOutcome where
  | success (d : OvData)
  | rateLimited
  | failure (e : String)
deriving DecidableEq, Repr

/-- Whether an attempt outcome is a success. -/
def AttemptOutcome.isSuccess : AttemptOutcome → Bool
  | .success _ => true
  | _ => false

/-- The retry/failover loop of `call_overpass`, flattened over the sequence of
attempt outcomes (mirror-major, attempt-minor).  A 429 sleeps and retries
without recording an error; any other failure records itself as `last_err` and
retries after a backoff; the first success returns immediately.  When all
attempts are spent the loop raises `OverpassError` carrying `last_err`
(which is still `none` when every attempt was rate-limited). -/
def runAttempts : List AttemptOutcome → Option String → Except (Option String) OvData
  | [], lastErr => .error lastErr
  | o :: rest, lastErr =>
      match o with
      | .success d => .ok d
      | .rateLimited => runAttempts rest lastErr
      | .failure e => runAttempts rest (some e)

/-- The full attempt sequence: for each mirror URL in order, attempts
`1, …, retryAttempts` (Python `range(1, retry_attempts + 1)`). -/
def attemptSeq (urls : List String) (retryAttempts : ℕ)
    (respond : String → ℕ → AttemptOutcome) : List AttemptOutcome :=
  (urls.map (fun u => (List.range retryAttempts).map (fun i => respond u (i + 1)))).flatten

/-- `call_overpass(query)` given the mirror list, the per-mirror retry budget
and an oracle giving the outcome of attempt `i` against mirror `u`. -/
def callOverpass (urls : List String) (retryAttempts : ℕ)
    (respond : String → ℕ → AttemptOutcome) : Except (Option String) OvData :=
  runAttempts (attemptSeq urls retryAttempts respond) none

/-- The last recorded underlying error of an attempt sequence (the value of
`last_err` after scanning the whole sequence). -/
def lastErrOf (outs : List AttemptOutcome) : Option String :=
  outs.foldl (fun acc o => match o with | .failure e => some e | _ => acc) none

/-! ## Email discovery (`try_discover_email_from_site` in `overpass.py`) -/

/-- A character admitted by the local part `[A-Z0-9._%+\-]` of `EMAIL_REGEX`
(case-insensitive). -/
def isLocalChar (c : Char) : Bool :=
  c.isAlphanum || c = '.' || c = '_' || c = '%' || c = '+' || c = '-'

/-- A character admitted by the domain part `[A-Z0-9.\-]` of `EMAIL_REGEX`. -/
def isDomainChar (c : Char) : Bool :=
  c.isAlphanum || c = '.' || c = '-'

/-- A character admitted by the TLD part `[A-Z]` of `EMAIL_REGEX`. -/
def isTldChar (c : Char) : Bool :=
  c.isAlpha

/-- Try to split the maximal domain-character run at dot position `d`: the
greedy `[A-Z0-9.\-]+` keeps `run[:d]` (nonempty), `run[d]` must be `'.'`, and
`[A-Z]\x7b2,\x7d` greedily takes the letters after it (at least two). -/
def tryDotSplit (run : List Char) (d : ℕ) : Option (List Char) :=
  match run.drop d with
  | '.' :: after =>
      let tld := after.takeWhile isTldChar
      if 2 ≤ tld.length ∧ 1 ≤ d then some (run.take d ++ '.' :: tld) else none
  | _ => none

/-- Backtracking of the greedy domain run: try dot positions from the largest
`d` downwards (`d = 0` is rejected inside `tryDotSplit`). -/
def scanDots (run : List Char) : ℕ → Option (List Char)
  | 0 => none
  | d + 1 =>
      match tryDotSplit run (d + 1) with
      | some r => some r
      | none => scanDots run d

/-- Attempt an `EMAIL_REGEX` match anchored at the start of `l`: a nonempty
local-character run, `'@'`, then a domain with a dot followed by at least two
letters (greedy with backtracking, as the Python `re` engine resolves it). -/
def matchEmailAt (l : List Char) : Option (List Char) :=
  let loc := l.takeWhile isLocalChar
  if loc.isEmpty then none
  else
    match l.drop loc.length with
    | '@' :: rest =>
        let run := rest.takeWhile isDomainChar
        (scanDots run (run.length - 1)).map (fun dom => loc ++ '@' :: dom)
    | _ => none

/-- `EMAIL_REGEX.search`: the match anchored at the leftmost position where
one exists. -/
def emailSearchAux : List Char → Option (List Char)
  | [] => none
  | c :: rest =>
      match matchEmailAt (c :: rest) with
      | some m => some m
      | none => emailSearchAux rest

/-- `EMAIL_REGEX.search(text)` returning the matched string. -/
def emailSearch (s : String) : Option String :=
  (emailSearchAux s.toList).map String.mk

/-- Decide whether `needle` occurs as a contiguous substring of `hay`. -/
def hasSub (needle : List Char) : List Char → Bool
  | [] => needle.isEmpty
  | c :: rest => needle.isPrefixOf (c :: rest) || hasSub needle rest

/-- The placeholder filter: the lowercased match must not contain any of the
four placeholder substrings. -/
def isPlaceholder (found : String) : Bool :=
  ["example.com", "email@", "your@", "info@example"].any
    (fun bad => hasSub bad.toList (found.toList.map Char.toLower))

/-- Python `url.startswith(p)`. -/
def strStartsWith (url p : String) : Bool :=
  p.toList.isPrefixOf url.toList

/-- Prefix `http://` when the website has no scheme. -/
def normalizeUrl (url : String) : String :=
  if strStartsWith url "http://" || strStartsWith url "https://" then url
  else "http://" ++ url

/-- `urllib.parse.urljoin(base, path)` for a base holding a scheme and an
absolute path argument: keep scheme and authority, replace the path. -/
def joinRoot (base path : String) : String :=
  let bl := base.toList
  if strStartsWith base "http://" then
    String.mk ("http://".toList ++ (bl.drop 7).takeWhile (· ≠ '/') ++ path.toList)
  else if strStartsWith base "https://" then
    String.mk ("https://".toList ++ (bl.drop 8).takeWhile (· ≠ '/') ++ path.toList)
  else path

/-- The candidate-probing loop of `try_discover_email_from_site`.  The page
oracle returns `none` for a request exception (swallowed) and otherwise the
status code and body; statuses `≥ 400` are skipped; a match that is a
placeholder is skipped; the first non-placeholder match is returned. -/
def probeCandidates (fetchPage : String → Option (ℕ × String)) :
    List String → Option String
  | [] => none
  | cand :: rest =>
      match fetchPage cand with
      | none => probeCandidates fetchPage rest
      | some (status, body) =>
          if 400 ≤ status then probeCandidates fetchPage rest
          else
            match emailSearch body with
            | none => probeCandidates fetchPage rest
            | some found =>
                if isPlaceholder found then probeCandidates fetchPage rest
                else some found

/-- `try_discover_email_from_site(url)` given a page oracle: empty URLs yield
`none`; otherwise the homepage, `/contact` and `/contact-us` are probed in
order. -/
def tryDiscoverEmail (fetchPage : String → Option (ℕ × String)) (url : String) :
    Option String :=
  if url = "" then none
  else
    let u := normalizeUrl url
    probeCandidates fetchPage [u, joinRoot u "/contact", joinRoot u "/contact-us"]

/-! ## Haversine distance and the radius filter -/

/-- `math.radians(x) = x * π / 180`. -/
noncomputable def radiansR (x : ℝ) : ℝ :=
  x * Real.pi / 180

/-- `math.atan2(y, x)`: the two-argument arctangent. -/
noncomputable def atan2R (y x : ℝ) : ℝ :=
  if 0 < x then Real.arctan (y / x)
  else if x < 0 then
    (if 0 ≤ y then Real.arctan (y / x) + Real.pi else Real.arctan (y / x) - Real.pi)
  else
    (if 0 < y then Real.pi / 2 else if y < 0 then -(Real.pi / 2) else 0)

/-- `_haversine_distance_m`: great-circle distance in metres with a mean Earth
radius of 6 371 000 m. -/
noncomputable def haversineDistM (lat1 lon1 lat2 lon2 : ℝ) : ℝ :=
  let radius_m : ℝ := 6371000
  let phi1 := radiansR lat1
  let phi2 := radiansR lat2
  let dPhi := radiansR (lat2 - lat1)
  let dLambda := radiansR (lon2 - lon1)
  let a := Real.sin (dPhi / 2) ^ 2 + Real.cos phi1 * Real.cos phi2 * Real.sin (dLambda / 2) ^ 2
  let c := 2 * atan2R (Real.sqrt a) (Real.sqrt (1 - a))
  radius_m * c

/-- The retention condition of the distance filter in `fetch_places`: both
coordinates present and haversine distance within
`radius_m * distance_tolerance_factor`. -/
def keepByDistance (lat lon : ℚ) (radius_m : ℤ) (tol : ℝ) (r : PlaceRec) : Prop :=
  r.lat ≠ none ∧ r.lon ≠ none ∧
    haversineDistM (lat : ℝ) (lon : ℝ) ((r.lat.getD 0 : ℚ) : ℝ) ((r.lon.getD 0 : ℚ) : ℝ)
      ≤ (radius_m : ℝ) * tol

/-- The distance-filter list comprehension of `fetch_places`. -/
noncomputable def distFilter (lat lon : ℚ) (radius_m : ℤ) (tol : ℝ)
    (recs : List PlaceRec) : List PlaceRec :=
  recs.filter (fun r => @decide (keepByDistance lat lon radius_m tol r) (Classical.propDecidable _))

/-! ## Query construction and the category table -/

/-- `re.escape`: escape every character other than ASCII letters, digits and
underscore with a backslash. -/
def reEscape (s : String) : String :=
  String.mk (s.toList.flatMap (fun c => if c.isAlphanum || c = '_' then [c] else ['\\', c]))

/-- `_value_regex(values)`. -/
def valueRegex (values : List String) : String :=
  "^(" ++ String.intercalate "|" (values.map reEscape) ++ ")$"

/-- `build_area_query`: Overpass QL scoped to a circular area.  Python float
formatting of the coordinates is modelled by rational `toString`; the query
text is only consumed opaquely by the mirror oracle. -/
def buildAreaQuery (lat lon : ℚ) (radius_m : ℤ) (tagKey : String)
    (tagValues : List String) : String :=
  let vr := valueRegex tagValues
  let around := "(around:" ++ toString radius_m ++ "," ++ toString lat ++ "," ++ toString lon ++ ");"
  "\n    [out:json][timeout:900][maxsize:2000000000];\n\n    (\n      node[\"" ++
    tagKey ++ "\"~\"" ++ vr ++ "\"]" ++ around ++ "\n      way [\"" ++
    tagKey ++ "\"~\"" ++ vr ++ "\"]" ++ around ++ "\n      relation [\"" ++
    tagKey ++ "\"~\"" ++ vr ++ "\"]" ++ around ++ "\n    );\n\n    out tags center qt;\n    "

/-- `build_california_query`: Overpass QL over the California administrative
boundary. -/
def buildCaliforniaQuery (tagKey : String) (tagValues : List String) : String :=
  let vr := valueRegex tagValues
  "\n    [out:json][timeout:900][maxsize:2000000000];\n\n    rel[\"name\"=\"California\"][\"boundary\"=\"administrative\"][\"admin_level\"=\"4\"]->.ca;\n    area.ca->.searchArea;\n\n    (\n      node[\"" ++
    tagKey ++ "\"~\"" ++ vr ++ "\"](area.searchArea);\n      way [\"" ++
    tagKey ++ "\"~\"" ++ vr ++ "\"](area.searchArea);\n      relation [\"" ++
    tagKey ++ "\"~\"" ++ vr ++ "\"](area.searchArea);\n    );\n\n    out tags center qt;\n    "

/-- A category specification (`key`/`values` entry of `DEFAULT_CATEGORIES`). -/
structure CatSpec where
  key : String
  values : List String
deriving DecidableEq, Repr

/-- `DEFAULT_CATEGORIES` from `config.py`, in insertion order. -/
def defaultCategories : List (String × CatSpec) :=
  [("school", ⟨"amenity", ["school"]⟩),
   ("college", ⟨"amenity", ["college", "university"]⟩),
   ("hospital", ⟨"amenity", ["hospital", "clinic"]⟩),
   ("hotel", ⟨"tourism", ["hotel", "motel", "hostel", "guest_house"]⟩)]

/-- `DEFAULT_CATEGORIES.get(c)`. -/
def defaultCategoriesGet (c : String) : Option CatSpec :=
  (defaultCategories.find? (fun p => p.1 = c)).map (·.2)

/-- Whether `DEFAULT_CATEGORIES.get(c)` is truthy (the specs are nonempty
dictionaries, so truthiness coincides with presence). -/
def isSupportedCategory (c : String) : Bool :=
  (defaultCategoriesGet c).isSome

/-- The keys of `DEFAULT_CATEGORIES`, in order. -/
def defaultCategoryKeys : List String :=
  defaultCategories.map (·.1)

/-! ## `fetch_places` -/

/-- A Python exception relevant to the fetch pipeline: an `OverpassError`
or any other exception. -/
inductive PyErr where
  | overpass (msg : String)
  | other (msg : String)
deriving DecidableEq, Repr

/-- The error re-wrapping at the end of the fan-out loop: an `OverpassError`
is re-raised as-is; any other first error is wrapped into an
`OverpassError("Failed to fetch places: …")`. -/
def wrapFetchErr : PyErr → PyErr
  | .overpass m => .overpass m
  | .other m => .overpass ("Failed to fetch places: " ++ m)

/-- The effective category list of `fetch_places`: a falsy argument (absent or
the empty list) is replaced by all default category keys, then unsupported
names are dropped. -/
def effectiveCategories (categories : Option (List String)) : List String :=
  (match categories with
   | none => defaultCategoryKeys
   | some [] => defaultCategoryKeys
   | some cs => cs).filter isSupportedCategory

/-- The per-record retention test of `_fetch_category`:
`rec["name"] and rec["lat"] is not None and rec["lon"] is not None`. -/
def keepRec (r : PlaceRec) : Bool :=
  truthyOptStr r.name && r.lat.isSome && r.lon.isSome

/-- `_fetch_category(category)` given the `call_overpass` oracle: build the
area query, call the mirrors, normalise every element and keep the records
passing `keepRec`. -/
def fetchCategory (callOv : String → Except PyErr OvData) (lat lon : ℚ)
    (radius_m : ℤ) (category : String) : Except PyErr (List PlaceRec) :=
  match defaultCategoriesGet category with
  | none => .error (.other "KeyError")
  | some spec =>
      (callOv (buildAreaQuery lat lon radius_m spec.key spec.values)).map
        (fun data => (data.elements.map (fun el => normalizeRecord el category)).filter keepRec)

/-- The `as_completed` collection loop of `fetch_places`: walk the futures in
completion order, accumulating results until the first error; once an error
is recorded, later futures are cancelled/ignored and the accumulator is left
untouched. -/
def fanOut (fetchCat : String → Except PyErr (List PlaceRec)) :
    List String → List PlaceRec → Option PyErr → List PlaceRec × Option PyErr
  | [], recs, firstError => (recs, firstError)
  | c :: rest, recs, firstError =>
      match firstError with
      | some _ => fanOut fetchCat rest recs firstError
      | none =>
          match fetchCat c with
          | .ok rs => fanOut fetchCat rest (recs ++ rs) none
          | .error e => fanOut fetchCat rest recs (some e)

/-- The configuration values consumed by the fetch pipelines. -/
structure FetchSettings where
  distanceToleranceFactor : ℝ
  enableWebsiteEmailDiscovery : Bool

/-- The per-record enrichment step: a record with a falsy email and a truthy
website gets `try_discover_email_from_site` applied, the found email (if any)
written into it. -/
def enrichOne (fetchPage : String → Option (ℕ × String)) (r : PlaceRec) : PlaceRec :=
  if ¬ truthyOptStr r.email ∧ truthyOptStr r.website then
    match tryDiscoverEmail fetchPage (r.website.getD "") with
    | some e => { r with email := some e }
    | none => r
  else r

/-- The enrichment pass shared by both pipelines, over the deduplicated
records.  Sleeps are not modelled. -/
def enrichRecords (fetchPage : String → Option (ℕ × String))
    (recs : List PlaceRec) : List PlaceRec :=
  recs.map (enrichOne fetchPage)

/-- `fetch_places(lat, lon, radius_m, categories, enable_email_discovery)`.

`callOv` is the `call_overpass` oracle, `fetchPage` the website-crawl oracle
and `completionOrder` the order in which `as_completed` yields the per-category
futures (the theorems quantify over its permutations).  An empty effective
category list returns `[]` immediately; the first category error fails the
whole call wrapped as an `OverpassError`; otherwise the concatenated records
are distance-filtered, deduplicated and optionally enriched. -/
noncomputable def fetchPlaces (callOv : String → Except PyErr OvData)
    (fetchPage : String → Option (ℕ × String)) (settings : FetchSettings)
    (lat lon : ℚ) (radius_m : ℤ) (categories : Option (List String))
    (enableEmailDiscovery : Bool) (completionOrder : List String) :
    Except PyErr (List PlaceRec) :=
  let cats := effectiveCategories categories
  if cats.isEmpty then .ok []
  else
    match fanOut (fetchCategory callOv lat lon radius_m) completionOrder [] none with
    | (_, some e) => .error (wrapFetchErr e)
    | (records, none) =>
        let filtered := distFilter lat lon radius_m settings.distanceToleranceFactor records
        let deduped := dedupe filtered
        .ok (if enableEmailDiscovery && settings.enableWebsiteEmailDiscovery then
              enrichRecords fetchPage deduped
            else deduped)

/-! ## `fetch_california_places` -/

/-- Python truthiness of an optional rational: absent and `0` are falsy. -/
def truthyOptQ : Option ℚ → Bool
  | none => false
  | some q => q ≠ 0

/-- The sequential per-category collection loop of `fetch_california_places`:
any category's failure aborts the whole operation. -/
def fetchCaliforniaRaw (callOv : String → Except PyErr OvData) :
    List (String × CatSpec) → Except PyErr (List PlaceRec)
  | [] => .ok []
  | (category, spec) :: rest => do
      let data ← callOv (buildCaliforniaQuery spec.key spec.values)
      let recs := data.elements.map (fun el => normalizeRecord el category)
      let more ← fetchCaliforniaRaw callOv rest
      pure (recs ++ more)

/-- `fetch_california_places(enable_email_discovery)`: sequential statewide
fetch over all default categories, truthiness filter on `name`/`lat`/`lon`
(note: a coordinate equal to `0` is falsy and dropped here), deduplication,
optional enrichment.  No distance filter is applied. -/
def fetchCaliforniaPlaces (callOv : String → Except PyErr OvData)
    (fetchPage : String → Option (ℕ × String)) (settings : FetchSettings)
    (enableEmailDiscovery : Bool) : Except PyErr (List PlaceRec) :=
  (fetchCaliforniaRaw callOv defaultCategories).map (fun records =>
    let kept := records.filter (fun r =>
      truthyOptStr r.name && truthyOptQ r.lat && truthyOptQ r.lon)
    let deduped := dedupe kept
    if enableEmailDiscovery && settings.enableWebsiteEmailDiscovery then
      enrichRecords fetchPage deduped
    else deduped)

/-! ## Rounding evaluation helpers -/

/-- Evaluate `roundHalfEvenQ` when the fractional part is below one half. -/
theorem roundHalfEvenQ_eq_low (q : ℚ) (n : ℤ) (h1 : (n : ℚ) ≤ q) (h2 : q - n < 1/2) :
    roundHalfEvenQ q = n := by
  have hf : qfloor q = n := by
    rw [qfloor, Int.floor_eq_iff]
    exact ⟨h1, by linarith⟩
  simp only [roundHalfEvenQ, hf]
  rw [if_pos h2]

/-- `roundHalfEvenQ` fixes integers. -/
theorem roundHalfEvenQ_intCast (n : ℤ) : roundHalfEvenQ (n : ℚ) = n :=
  roundHalfEvenQ_eq_low _ n (le_refl _) (by norm_num)

/-- `round5` fixes `0`. -/
theorem round5_zero : round5 0 = 0 := by
  unfold round5
  rw [show ((0 : ℚ) * 100000) = ((0 : ℤ) : ℚ) by norm_num, roundHalfEvenQ_intCast]
  norm_num

/-- `round6` fixes `0`. -/
theorem round6_zero : round6 0 = 0 := by
  unfold round6
  rw [show ((0 : ℚ) * 1000000) = ((0 : ℤ) : ℚ) by norm_num, roundHalfEvenQ_intCast]
  norm_num

/-- `round6` fixes `1`. -/
theorem round6_one : round6 1 = 1 := by
  unfold round6
  rw [show ((1 : ℚ) * 1000000) = ((1000000 : ℤ) : ℚ) by norm_num, roundHalfEvenQ_intCast]
  norm_num

/-- `round5` collapses sixth-decimal-place noise: `round5 (10⁻⁶) = 0`. -/
theorem round5_micro1 : round5 (1/1000000) = 0 := by
  unfold round5
  rw [show ((1/1000000 : ℚ) * 100000) = 1/10 by norm_num,
    roundHalfEvenQ_eq_low (1/10 : ℚ) 0 (by norm_num) (by norm_num)]
  norm_num

/-- `round5 (2 × 10⁻⁶) = 0`. -/
theorem round5_micro2 : round5 (2/1000000) = 0 := by
  unfold round5
  rw [show ((2/1000000 : ℚ) * 100000) = 1/5 by norm_num,
    roundHalfEvenQ_eq_low (1/5 : ℚ) 0 (by norm_num) (by norm_num)]
  norm_num

/-! ## Claim C1: cache key normalisation -/

/-- Helper: sorting with `≤` on strings maps permutations to equal lists. -/
theorem insertionSort_eq_of_perm {l₁ l₂ : List String} (h : l₁.Perm l₂) :
    List.insertionSort (· ≤ ·) l₁ = List.insertionSort (· ≤ ·) l₂ :=
  List.eq_of_perm_of_sorted
    (((List.perm_insertionSort _ l₁).trans h).trans (List.perm_insertionSort _ l₂).symm)
    (List.sorted_insertionSort _ l₁) (List.sorted_insertionSort _ l₂)

/-- C1 (amended): `_make_cache_key` is invariant under permutation of the
category list (the source sorts but does not deduplicate, so only the
multiset of names is normalised) and under coordinate changes that agree
after rounding to 5 decimal places. -/
theorem c1_cache_key_normalization (lat lon lat' lon' : ℚ) (r : ℤ)
    (cats cats' : List String) (flag : Bool) (hperm : cats.Perm cats')
    (hlat : round5 lat = round5 lat') (hlon : round5 lon = round5 lon') :
    makeCacheKey lat lon r cats flag = makeCacheKey lat' lon' r cats' flag := by
  unfold makeCacheKey
  rw [hlat, hlon, insertionSort_eq_of_perm hperm]

/-- C1 witness: permuted category lists and latitudes differing only in the
sixth decimal place produce the same key. -/
theorem c1_cache_key_normalization_witness :
    makeCacheKey (1/1000000) 0 100 ["school", "hotel"] false
      = makeCacheKey (2/1000000) 0 100 ["hotel", "school"] false :=
  c1_cache_key_normalization (1/1000000) 0 (2/1000000) 0 100
    ["school", "hotel"] ["hotel", "school"] false
    (List.Perm.swap "hotel" "school" [])
    (by rw [round5_micro1, round5_micro2]) rfl

/-- C1 counterexample: the claim as stated is false on the code — the
category list is sorted but not deduplicated, so two lists with the same
category set (after deduplication) produce different keys. -/
theorem c1_cache_key_normalization_counterexample :
    makeCacheKey 0 0 100 ["hotel", "hotel"] false
      ≠ makeCacheKey 0 0 100 ["hotel"] false := by
  intro h
  have h4 := congrArg (fun k : CacheKey => k.2.2.2.1.length) h
  simp only [makeCacheKey] at h4
  rw [(List.perm_insertionSort _ _).length_eq, (List.perm_insertionSort _ _).length_eq] at h4
  simp at h4

/-! ## Cache lemmas -/

/-- The eviction loop drops exactly the least-recently-used prefix. -/
theorem evictLRU_eq_drop : ∀ (c : SearchCache) (m : ℕ), evictLRU c m = c.drop (c.length - m)
  | [], m => by simp [evictLRU]
  | x :: xs, m => by
      rw [evictLRU]
      by_cases h : m < (x :: xs).length
      · rw [if_pos h, evictLRU_eq_drop xs m]
        simp only [List.length_cons] at h ⊢
        have hj : xs.length + 1 - m = (xs.length - m) + 1 := by omega
        rw [hj]
        rfl
      · rw [if_neg h]
        simp only [List.length_cons] at h
        have hj : xs.length + 1 - m = 0 := by omega
        simp [hj]

/-- The eviction loop leaves `min` of the length and the limit. -/
theorem evictLRU_length (c : SearchCache) (m : ℕ) :
    (evictLRU c m).length = min c.length m := by
  rw [evictLRU_eq_drop, List.length_drop]
  omega

/-- Looking up a key that no element of the first list carries skips it. -/
theorem lookup_append_notkey (l l₂ : SearchCache) (k : CacheKey)
    (h : ∀ x ∈ l, ¬ x.1 = k) : lookupEntry (l ++ l₂) k = lookupEntry l₂ k := by
  induction l with
  | nil => rfl
  | cons x xs ih =>
      have hx : ¬ x.1 = k := h x (List.mem_cons_self x xs)
      simp only [List.cons_append, lookupEntry, if_neg hx]
      exact ih (fun y hy => h y (List.mem_cons_of_mem x hy))

/-- Every element surviving `eraseKey` carries a different key. -/
theorem mem_eraseKey_ne (c : SearchCache) (k : CacheKey) (x : CacheKey × CacheEntry)
    (hx : x ∈ eraseKey c k) : ¬ x.1 = k := by
  induction c with
  | nil => simp [eraseKey] at hx
  | cons y ys ih =>
      by_cases hy : y.1 = k
      · rw [eraseKey, if_pos hy] at hx
        exact ih hx
      · rw [eraseKey, if_neg hy] at hx
        rcases List.mem_cons.mp hx with h1 | h2
        · rw [h1]
          exact hy
        · exact ih h2

/-- `eraseKey` removes the binding of `k`. -/
theorem lookup_erase_self (c : SearchCache) (k : CacheKey) :
    lookupEntry (eraseKey c k) k = none := by
  induction c with
  | nil => rfl
  | cons x xs ih =>
      by_cases hx : x.1 = k
      · rw [eraseKey, if_pos hx]
        exact ih
      · rw [eraseKey, if_neg hx, lookupEntry, if_neg hx]
        exact ih

/-- `eraseKey` leaves other keys' bindings unchanged. -/
theorem lookup_erase_other (c : SearchCache) (k k' : CacheKey) (h : ¬ k' = k) :
    lookupEntry (eraseKey c k) k' = lookupEntry c k' := by
  induction c with
  | nil => rfl
  | cons x xs ih =>
      by_cases hx : x.1 = k
      · have hx' : ¬ x.1 = k' := fun he => h (he ▸ hx)
        rw [eraseKey, if_pos hx, lookupEntry, if_neg hx']
        exact ih
      · by_cases hx' : x.1 = k'
        · rw [eraseKey, if_neg hx, lookupEntry, if_pos hx', lookupEntry, if_pos hx']
        · rw [eraseKey, if_neg hx, lookupEntry, if_neg hx', lookupEntry, if_neg hx']
          exact ih

/-- `eraseKey` never lengthens the cache. -/
theorem eraseKey_length_le (c : SearchCache) (k : CacheKey) :
    (eraseKey c k).length ≤ c.length := by
  induction c with
  | nil => simp [eraseKey]
  | cons x xs ih =>
      by_cases hx : x.1 = k
      · rw [eraseKey, if_pos hx]
        simp only [List.length_cons]
        omega
      · rw [eraseKey, if_neg hx]
        simp only [List.length_cons]
        omega

/-- Looking up the key just moved to the most-recently-used end finds it,
even after any eviction of a least-recently-used prefix. -/
theorem lookup_drop_append_self (l : SearchCache) (k : CacheKey) (e : CacheEntry)
    (j : ℕ) (hj : j ≤ l.length) (hl : ∀ x ∈ l, ¬ x.1 = k) :
    lookupEntry ((l ++ [(k, e)]).drop j) k = some e := by
  rw [List.drop_append_of_le_length hj]
  rw [lookup_append_notkey _ _ _ (fun x hx => hl x (List.mem_of_mem_drop hx))]
  simp [lookupEntry]

/-- `eraseKey` is the identity when no element carries the key. -/
theorem eraseKey_of_notkey (c : SearchCache) (k : CacheKey)
    (h : ∀ x ∈ c, ¬ x.1 = k) : eraseKey c k = c := by
  induction c with
  | nil => rfl
  | cons x xs ih =>
      rw [eraseKey, if_neg (h x (List.mem_cons_self x xs))]
      rw [ih (fun y hy => h y (List.mem_cons_of_mem x hy))]

/-- `eraseKey` only ever removes elements. -/
theorem mem_of_mem_eraseKey (c : SearchCache) (k : CacheKey)
    (x : CacheKey × CacheEntry) (hx : x ∈ eraseKey c k) : x ∈ c := by
  induction c with
  | nil => simp [eraseKey] at hx
  | cons y ys ih =>
      by_cases hy : y.1 = k
      · rw [eraseKey, if_pos hy] at hx
        exact List.mem_cons_of_mem y (ih hx)
      · rw [eraseKey, if_neg hy] at hx
        rcases List.mem_cons.mp hx with h1 | h2
        · exact h1 ▸ List.mem_cons_self y ys
        · exact List.mem_cons_of_mem y (ih h2)

/-- C4: TTL semantics of the response cache.  A put with `ttl ≤ 0` leaves
the cache unchanged; a put with positive `ttl` stores the entry with
`expires_at = now + ttl` (findable afterwards whenever the limit admits at
least one entry); and a get after the entry's expiry time returns a miss,
removes exactly that entry, and leaves all other keys' bindings intact. -/
theorem c4_cache_ttl_semantics (c : SearchCache) (k : CacheKey) (label : String)
    (results : List PlaceRec) (now now2 : ℚ) (ttl : ℤ) (m : ℕ) (e : CacheEntry) :
    (ttl ≤ 0 → storeCached c k label results now ttl m = c) ∧
    (0 < ttl → 1 ≤ m →
      lookupEntry (storeCached c k label results now ttl m) k
        = some ⟨label, results, now + (ttl : ℚ)⟩) ∧
    (lookupEntry c k = some e → e.expiresAt < now2 →
      (getCached c k now2).1 = none ∧
      lookupEntry (getCached c k now2).2 k = none ∧
      ∀ k', ¬ k' = k → lookupEntry (getCached c k now2).2 k' = lookupEntry c k') := by
  refine ⟨fun h => ?_, fun h1 hm => ?_, fun hlk hexp => ?_⟩
  · rw [storeCached, if_pos h]
  · rw [storeCached, if_neg (by omega), evictLRU_eq_drop]
    apply lookup_drop_append_self
    · simp only [List.length_append, List.length_cons, List.length_nil]
      omega
    · exact fun x hx => mem_eraseKey_ne c k x hx
  · have h2 : getCached c k now2 = (none, eraseKey c k) := by
      simp only [getCached, hlk, if_pos hexp]
    rw [h2]
    exact ⟨rfl, lookup_erase_self c k, fun k' hk' => lookup_erase_other c k k' hk'⟩

/-- C4 witness: at concrete inputs — a `ttl = 0` put is a no-op; a `ttl = 5`
put at time `0` stores expiry `5`; a get at time `10` of an entry expiring
at `5` misses and removes it. -/
theorem c4_cache_ttl_semantics_witness :
    (storeCached [] ((0 : ℚ), (0 : ℚ), (0 : ℤ), ([] : List String), false) "L" [] 0 0 8
      = []) ∧
    (lookupEntry
        (storeCached [] ((0 : ℚ), (0 : ℚ), (0 : ℤ), ([] : List String), false) "L" [] 0 5 8)
        ((0 : ℚ), (0 : ℚ), (0 : ℤ), ([] : List String), false)
      = some ⟨"L", [], 0 + ((5 : ℤ) : ℚ)⟩) ∧
    ((getCached [(((0 : ℚ), (0 : ℚ), (0 : ℤ), ([] : List String), false), ⟨"L", [], 5⟩)]
        ((0 : ℚ), (0 : ℚ), (0 : ℤ), ([] : List String), false) 10).1 = none) ∧
    (lookupEntry
        (getCached [(((0 : ℚ), (0 : ℚ), (0 : ℤ), ([] : List String), false), ⟨"L", [], 5⟩)]
          ((0 : ℚ), (0 : ℚ), (0 : ℤ), ([] : List String), false) 10).2
        ((0 : ℚ), (0 : ℚ), (0 : ℤ), ([] : List String), false) = none) := by
  refine ⟨?_, ?_, ?_, ?_⟩
  · exact (c4_cache_ttl_semantics [] _ "L" [] 0 0 0 8 ⟨"L", [], 5⟩).1 (by norm_num)
  · exact (c4_cache_ttl_semantics [] _ "L" [] 0 0 5 8 ⟨"L", [], 5⟩).2.1 (by norm_num) (by norm_num)
  · exact ((c4_cache_ttl_semantics _ _ "L" [] 0 10 5 8 ⟨"L", [], 5⟩).2.2
      (by simp [lookupEntry]) (by norm_num)).1
  · exact ((c4_cache_ttl_semantics _ _ "L" [] 0 10 5 8 ⟨"L", [], 5⟩).2.2
      (by simp [lookupEntry]) (by norm_num)).2.1

/-- C5: LRU invariant.  A put never leaves the cache above `max_entries`
(given it was within the limit before, covering the `ttl ≤ 0` no-op);
putting a fresh key into a cache exactly at capacity evicts exactly the
least-recently-used (front) entry and appends the new binding at the
most-recently-used end; and an entry read by a successful get is moved to
most-recently-used, so it survives the single eviction caused by the next
put of a fresh key at capacity. -/
theorem c5_lru_invariant (c : SearchCache) (k k2 : CacheKey) (label label2 : String)
    (results results2 : List PlaceRec) (now now2 : ℚ) (ttl ttl2 : ℤ) (m : ℕ)
    (e : CacheEntry) :
    (c.length ≤ m → (storeCached c k label results now ttl m).length ≤ m) ∧
    (0 < ttl → c ≠ [] → c.length = m → (∀ x ∈ c, ¬ x.1 = k) →
      storeCached c k label results now ttl m
        = c.tail ++ [(k, ⟨label, results, now + (ttl : ℚ)⟩)]) ∧
    (lookupEntry c k = some e → ¬ e.expiresAt < now → ¬ k2 = k →
      (∀ x ∈ c, ¬ x.1 = k2) → 0 < ttl2 → 1 ≤ (eraseKey c k).length →
      lookupEntry
        (storeCached (getCached c k now).2 k2 label2 results2 now2 ttl2
          ((eraseKey c k).length + 1)) k = some e) := by
  refine ⟨fun hle => ?_, fun h1 hne hlen hfresh => ?_, ?_⟩
  · by_cases h : ttl ≤ 0
    · rw [storeCached, if_pos h]
      exact hle
    · rw [storeCached, if_neg h, evictLRU_length]
      omega
  · rw [storeCached, if_neg (by omega), eraseKey_of_notkey c k hfresh]
    rw [evictLRU_eq_drop]
    have hlen2 : (c ++ [(k, (⟨label, results, now + (ttl : ℚ)⟩ : CacheEntry))]).length - m = 1 := by
      simp only [List.length_append, List.length_cons, List.length_nil]
      omega
    rw [hlen2, List.drop_append_of_le_length (by cases c with
      | nil => exact absurd rfl hne
      | cons y ys => simp), List.drop_one]
  · intro hlk hexp hk2 hfresh2 h2 hL
    have hget : (getCached c k now).2 = eraseKey c k ++ [(k, e)] := by
      simp only [getCached, hlk, if_neg hexp]
    rw [hget, storeCached, if_neg (by omega)]
    have hfresh3 : ∀ x ∈ eraseKey c k ++ [(k, e)], ¬ x.1 = k2 := by
      intro x hx
      rcases List.mem_append.mp hx with h1 | h1
      · exact hfresh2 x (mem_of_mem_eraseKey c k x h1)
      · rcases List.mem_singleton.mp h1 with rfl
        exact fun he => hk2 he.symm
    rw [eraseKey_of_notkey _ k2 hfresh3, evictLRU_eq_drop]
    have hlen3 : ((eraseKey c k ++ [(k, e)]) ++
        [(k2, (⟨label2, results2, now2 + (ttl2 : ℚ)⟩ : CacheEntry))]).length
          - ((eraseKey c k).length + 1) = 1 := by
      simp only [List.length_append, List.length_cons, List.length_nil]
      omega
    rw [hlen3, List.append_assoc]
    rw [List.drop_append_of_le_length (by omega)]
    rw [lookup_append_notkey _ _ k (fun x hx =>
      mem_eraseKey_ne c k x (List.mem_of_mem_drop hx))]
    simp [lookupEntry]

/-- C5 witness: storing into an empty cache respects the limit; storing a
fresh key into a full one-entry cache evicts the old entry; and a got-then
most-recently-used entry survives the eviction caused by storing a fresh
key into a full two-entry cache. -/
theorem c5_lru_invariant_witness :
    ((storeCached [] ((0 : ℚ), (0 : ℚ), (0 : ℤ), ([] : List String), false) "L" [] 0 5 3).length
      ≤ 3) ∧
    (storeCached [(((1 : ℚ), (0 : ℚ), (0 : ℤ), ([] : List String), false), ⟨"A", [], 5⟩)]
        ((0 : ℚ), (0 : ℚ), (0 : ℤ), ([] : List String), false) "L" [] 0 5 1
      = [] ++ [(((0 : ℚ), (0 : ℚ), (0 : ℤ), ([] : List String), false),
          ⟨"L", [], 0 + ((5 : ℤ) : ℚ)⟩)]) ∧
    (lookupEntry
        (storeCached
          (getCached
            [(((1 : ℚ), (0 : ℚ), (0 : ℤ), ([] : List String), false), ⟨"A", [], 5⟩),
             (((0 : ℚ), (0 : ℚ), (0 : ℤ), ([] : List String), false), ⟨"B", [], 5⟩)]
            ((0 : ℚ), (0 : ℚ), (0 : ℤ), ([] : List String), false) 0).2
          ((2 : ℚ), (0 : ℚ), (0 : ℤ), ([] : List String), false) "C" [] 0 5
          ((eraseKey
            [(((1 : ℚ), (0 : ℚ), (0 : ℤ), ([] : List String), false), ⟨"A", [], 5⟩),
             (((0 : ℚ), (0 : ℚ), (0 : ℤ), ([] : List String), false), ⟨"B", [], 5⟩)]
            ((0 : ℚ), (0 : ℚ), (0 : ℤ), ([] : List String), false)).length + 1))
        ((0 : ℚ), (0 : ℚ), (0 : ℤ), ([] : List String), false)
      = some ⟨"B", [], 5⟩) := by
  refine ⟨?_, ?_, ?_⟩
  · exact (c5_lru_invariant [] ((0 : ℚ), (0 : ℚ), (0 : ℤ), ([] : List String), false)
      ((0 : ℚ), (0 : ℚ), (0 : ℤ), ([] : List String), false) "L" "L" [] [] 0 0 5 5 3
      ⟨"L", [], 5⟩).1 (by simp)
  · exact (c5_lru_invariant
      [(((1 : ℚ), (0 : ℚ), (0 : ℤ), ([] : List String), false), ⟨"A", [], 5⟩)]
      ((0 : ℚ), (0 : ℚ), (0 : ℤ), ([] : List String), false)
      ((0 : ℚ), (0 : ℚ), (0 : ℤ), ([] : List String), false) "L" "L" [] [] 0 0 5 5 1
      ⟨"L", [], 5⟩).2.1 (by norm_num) (by simp) (by simp) (by norm_num)
  · exact (c5_lru_invariant
      [(((1 : ℚ), (0 : ℚ), (0 : ℤ), ([] : List String), false), ⟨"A", [], 5⟩),
       (((0 : ℚ), (0 : ℚ), (0 : ℤ), ([] : List String), false), ⟨"B", [], 5⟩)]
      ((0 : ℚ), (0 : ℚ), (0 : ℤ), ([] : List String), false)
      ((2 : ℚ), (0 : ℚ), (0 : ℤ), ([] : List String), false) "C" "C" [] [] 0 0 5 5 2
      ⟨"B", [], 5⟩).2.2
      (by norm_num [lookupEntry]) (by norm_num) (by norm_num) (by norm_num [eraseKey])
      (by norm_num) (by norm_num [eraseKey, lookupEntry])

/-! ## Dedupe lemmas -/

/-- The first record in a list carrying a given identity key. -/
def firstWithKey (key : Option String × ℚ × ℚ) : List PlaceRec → Option PlaceRec
  | [] => none
  | x :: rest => if dedupeKey x = key then some x else firstWithKey key rest

/-- `dedupeAux` returns an order-preserving sublist of its input. -/
theorem dedupeAux_sublist : ∀ (recs : List PlaceRec) (seen : List (Option String × ℚ × ℚ)),
    (dedupeAux recs seen).Sublist recs
  | [], _ => List.Sublist.refl []
  | r :: rest, seen => by
      rw [dedupeAux]
      by_cases h : dedupeKey r ∈ seen
      · rw [if_pos h]
        exact (dedupeAux_sublist rest seen).cons r
      · rw [if_neg h]
        exact (dedupeAux_sublist rest (dedupeKey r :: seen)).cons₂ r

/-- Membership in `dedupeAux`: exactly the first-seen record of each key not
already seen. -/
theorem mem_dedupeAux : ∀ (recs : List PlaceRec) (seen : List (Option String × ℚ × ℚ))
    (r : PlaceRec), r ∈ dedupeAux recs seen ↔
      (dedupeKey r ∉ seen ∧ firstWithKey (dedupeKey r) recs = some r)
  | [], seen, r => by simp [dedupeAux, firstWithKey]
  | a :: rest, seen, r => by
      rw [dedupeAux]
      by_cases ha : dedupeKey a ∈ seen
      · rw [if_pos ha, mem_dedupeAux rest seen r, firstWithKey]
        by_cases hk : dedupeKey a = dedupeKey r
        · rw [if_pos hk]
          constructor
          · rintro ⟨hns, _⟩
            exact absurd (hk ▸ ha) hns
          · rintro ⟨hns, he⟩
            rcases Option.some.inj he with rfl
            exact absurd ha hns
        · rw [if_neg hk]
      · rw [if_neg ha, List.mem_cons, mem_dedupeAux rest (dedupeKey a :: seen) r,
          firstWithKey]
        by_cases hk : dedupeKey a = dedupeKey r
        · rw [if_pos hk]
          constructor
          · rintro (rfl | ⟨hns, _⟩)
            · exact ⟨fun h => absurd (hk ▸ h) ha, rfl⟩
            · exact absurd (List.mem_cons_self _ _) (hk ▸ hns)
          · rintro ⟨hns, he⟩
            exact Or.inl (Option.some.inj he).symm
        · rw [if_neg hk]
          constructor
          · rintro (rfl | ⟨hns, hf⟩)
            · exact absurd rfl hk
            · exact ⟨fun h => hns (List.mem_cons_of_mem _ h), hf⟩
          · rintro ⟨hns, hf⟩
            refine Or.inr ⟨fun h => ?_, hf⟩
            rcases List.mem_cons.mp h with h1 | h1
            · exact hk h1.symm
            · exact hns h1

/-- C9: `dedupe` keeps exactly the first-seen record of each identity key
`(name, lat rounded to 6 places, lon rounded to 6 places)` — unmodified, in
first-seen order (the output is a sublist of the input) — and treats an
absent coordinate as `0` for key purposes. -/
theorem c9_dedupe_first_seen (recs : List PlaceRec) (r : PlaceRec) :
    (dedupe recs).Sublist recs ∧
    (r ∈ dedupe recs ↔ firstWithKey (dedupeKey r) recs = some r) ∧
    (dedupeKey { r with lat := none, lon := none }
      = dedupeKey { r with lat := some 0, lon := some 0 }) := by
  refine ⟨dedupeAux_sublist recs [], ?_, by simp [dedupeKey]⟩
  rw [dedupe, mem_dedupeAux recs [] r]
  simp

/-- C9 witness: of two records sharing name and rounded coordinates, only the
first-seen survives `dedupe`, with all its fields. -/
theorem c9_dedupe_first_seen_witness :
    (⟨"node/1", "school", some "A", some "p1", none, none, "", some 0, some 0, []⟩ : PlaceRec)
        ∈ dedupe
          [⟨"node/1", "school", some "A", some "p1", none, none, "", some 0, some 0, []⟩,
           ⟨"node/2", "school", some "A", some "p2", none, none, "", some 0, some 0, []⟩] ∧
    ¬ (⟨"node/2", "school", some "A", some "p2", none, none, "", some 0, some 0, []⟩ : PlaceRec)
        ∈ dedupe
          [⟨"node/1", "school", some "A", some "p1", none, none, "", some 0, some 0, []⟩,
           ⟨"node/2", "school", some "A", some "p2", none, none, "", some 0, some 0, []⟩] := by
  constructor
  · exact (c9_dedupe_first_seen _ _).2.1.mpr (by simp [firstWithKey])
  · intro h
    have hf := (c9_dedupe_first_seen _ _).2.1.mp h
    simp [firstWithKey, dedupeKey] at hf

/-! ## Mirror failover lemmas -/

/-- `runAttempts` returns the first success, whatever error came before. -/
theorem runAttempts_first_success : ∀ (pre post : List AttemptOutcome) (d : OvData)
    (le : Option String), (∀ o ∈ pre, o.isSuccess = false) →
    runAttempts (pre ++ .success d :: post) le = .ok d
  | [], _, _, _, _ => rfl
  | o :: pre, post, d, le, h => by
      have ho := h o (List.mem_cons_self o pre)
      match o with
      | .success _ => simp [AttemptOutcome.isSuccess] at ho
      | .rateLimited =>
          rw [List.cons_append, runAttempts]
          exact runAttempts_first_success pre post d le
            (fun x hx => h x (List.mem_cons_of_mem _ hx))
      | .failure e =>
          rw [List.cons_append, runAttempts]
          exact runAttempts_first_success pre post d (some e)
            (fun x hx => h x (List.mem_cons_of_mem _ hx))

/-- When no attempt succeeds, `runAttempts` fails carrying the last recorded
underlying error (threaded through the `last_err` accumulator). -/
theorem runAttempts_all_fail : ∀ (outs : List AttemptOutcome) (le : Option String),
    (∀ o ∈ outs, o.isSuccess = false) →
    runAttempts outs le
      = .error (outs.foldl (fun acc o => match o with | .failure e => some e | _ => acc) le)
  | [], _, _ => rfl
  | o :: rest, le, h => by
      have ho := h o (List.mem_cons_self o rest)
      match o with
      | .success _ => simp [AttemptOutcome.isSuccess] at ho
      | .rateLimited =>
          rw [runAttempts, List.foldl_cons]
          exact runAttempts_all_fail rest le (fun x hx => h x (List.mem_cons_of_mem _ hx))
      | .failure e =>
          rw [runAttempts, List.foldl_cons]
          exact runAttempts_all_fail rest (some e) (fun x hx => h x (List.mem_cons_of_mem _ hx))

/-- C3: `call_overpass` walks the mirrors in configured order with
`retry_attempts` attempts per mirror (the attempt sequence `attemptSeq`);
the first well-formed, successfully-parsed response short-circuits the whole
operation and is returned; if no attempt succeeds the operation fails with an
`OverpassError` carrying the last underlying error (`none` when every failed
attempt was a 429, which records no error).  By construction the result is
either one whole parsed response or an error — never partial. -/
theorem c3_mirror_failover (urls : List String) (n : ℕ)
    (respond : String → ℕ → AttemptOutcome) (pre post : List AttemptOutcome) (d : OvData) :
    (attemptSeq urls n respond = pre ++ .success d :: post →
      (∀ o ∈ pre, o.isSuccess = false) →
      callOverpass urls n respond = .ok d) ∧
    ((∀ o ∈ attemptSeq urls n respond, o.isSuccess = false) →
      callOverpass urls n respond = .error (lastErrOf (attemptSeq urls n respond))) :=
  ⟨fun hseq hpre => by rw [callOverpass, hseq]; exact runAttempts_first_success pre post d none hpre,
   fun hall => by rw [callOverpass, lastErrOf]; exact runAttempts_all_fail _ none hall⟩

/-- C3 witness: mirror `u1` fails both attempts and `u2` is rate-limited once,
then succeeds — the success is returned; a single always-failing mirror
exhausts its retries and yields the error carrying the last failure. -/
theorem c3_mirror_failover_witness :
    callOverpass ["u1", "u2"] 2
        (fun u i => if u = "u1" then .failure ("f" ++ toString i)
          else if i = 1 then .rateLimited else .success ⟨[]⟩)
      = .ok ⟨[]⟩ ∧
    callOverpass ["u1"] 2 (fun _ _ => .failure "boom")
      = .error (lastErrOf (attemptSeq ["u1"] 2 (fun _ _ => .failure "boom"))) := by
  constructor
  · exact (c3_mirror_failover ["u1", "u2"] 2 _
      [.failure "f1", .failure "f2", .rateLimited] [] ⟨[]⟩).1 (by decide) (by decide)
  · exact (c3_mirror_failover ["u1"] 2 _ [] [] ⟨[]⟩).2 (by decide)

/-! ## Claim C6: enrichment placeholder filtering -/

/-- C6 (amended): the crawler probes the candidate pages in order — homepage,
`/contact`, `/contact-us` — and stops at the first page whose first email
match does not contain any placeholder substring.  When the homepage's match
is a placeholder and the `/contact` page yields a non-placeholder match, that
match is returned. -/
theorem c6_enrichment_placeholder_filtering (fp : String → Option (ℕ × String))
    (url : String) (s0 s1 : ℕ) (b0 b1 m0 m1 : String)
    (hurl : ¬ url = "")
    (hp0 : fp (normalizeUrl url) = some (s0, b0)) (hs0 : s0 < 400)
    (hm0 : emailSearch b0 = some m0) (hpl0 : isPlaceholder m0 = true)
    (hp1 : fp (joinRoot (normalizeUrl url) "/contact") = some (s1, b1)) (hs1 : s1 < 400)
    (hm1 : emailSearch b1 = some m1) (hpl1 : isPlaceholder m1 = false) :
    tryDiscoverEmail fp url = some m1 := by
  have h400a : ¬ 400 ≤ s0 := by omega
  have h400b : ¬ 400 ≤ s1 := by omega
  rw [tryDiscoverEmail, if_neg hurl]
  rw [probeCandidates, hp0]
  simp only [if_neg h400a, hm0, hpl0, if_true]
  rw [probeCandidates, hp1]
  simp only [if_neg h400b, hm1, hpl1, Bool.false_eq_true, if_false]

/-- C6 witness: website `"example.org"` (no scheme); the homepage's match
`"email@example.org"` contains the placeholder substring `"email@"`, so the
`/contact` page's `"info@realsite.org"` is returned. -/
theorem c6_enrichment_placeholder_filtering_witness :
    tryDiscoverEmail (fun c =>
        if c = "http://example.org" then some (200, "reach us: email@example.org")
        else if c = "http://example.org/contact" then some (200, "write to info@realsite.org")
        else none) "example.org"
      = some "info@realsite.org" :=
  c6_enrichment_placeholder_filtering _ "example.org" 200 200
    "reach us: email@example.org" "write to info@realsite.org"
    "email@example.org" "info@realsite.org"
    (by decide) (by decide) (by decide) (by decide) (by decide)
    (by decide) (by decide) (by decide) (by decide)

/-- C6 counterexample: the claim's scenario is false on the code — a homepage
containing `"contact@example.org"` is NOT filtered (the placeholder list is
`example.com`, `email@`, `your@`, `info@example`, none of which occurs in it),
so the homepage match is returned instead of the `/contact` page's
`"info@realsite.org"`. -/
theorem c6_enrichment_placeholder_filtering_counterexample :
    tryDiscoverEmail (fun c =>
        if c = "http://example.org" then some (200, "reach us: contact@example.org")
        else if c = "http://example.org/contact" then some (200, "write to info@realsite.org")
        else none) "example.org"
      = some "contact@example.org" ∧
    ¬ tryDiscoverEmail (fun c =>
        if c = "http://example.org" then some (200, "reach us: contact@example.org")
        else if c = "http://example.org/contact" then some (200, "write to info@realsite.org")
        else none) "example.org"
      = some "info@realsite.org" := by
  constructor
  · decide
  · decide

/-! ## Fan-out lemmas -/

/-- Once an error is recorded, the fan-out loop ignores every later future:
the accumulator and the error are frozen. -/
theorem fanOut_frozen (f : String → Except PyErr (List PlaceRec)) :
    ∀ (order : List String) (acc : List PlaceRec) (e : PyErr),
    fanOut f order acc (some e) = (acc, some e)
  | [], _, _ => rfl
  | c :: rest, acc, e => by
      rw [fanOut]
      exact fanOut_frozen f rest acc e

/-- If any category in the completion order fails, the fan-out loop ends with
a recorded error. -/
theorem fanOut_err_of_mem (f : String → Except PyErr (List PlaceRec)) :
    ∀ (order : List String) (acc : List PlaceRec) (c : String), c ∈ order →
    ∀ (e : PyErr), f c = .error e →
    ∃ e', (fanOut f order acc none).2 = some e'
  | [], _, c, hc, _, _ => absurd hc (List.not_mem_nil c)
  | a :: rest, acc, c, hc, e, hce => by
      rw [fanOut]
      cases hfa : f a with
      | ok rs =>
          rcases List.mem_cons.mp hc with rfl | hc'
          · rw [hfa] at hce
            exact absurd hce (by simp)
          · show ∃ e', (fanOut f rest (acc ++ rs) none).2 = some e'
            exact fanOut_err_of_mem f rest (acc ++ rs) c hc' e hce
      | error e2 =>
          refine ⟨e2, ?_⟩
          show (fanOut f rest acc (some e2)).2 = some e2
          rw [fanOut_frozen]

/-- The fan-out wrapper always surfaces an `OverpassError`. -/
theorem wrapFetchErr_overpass (e : PyErr) : ∃ m, wrapFetchErr e = .overpass m := by
  cases e with
  | overpass m => exact ⟨m, rfl⟩
  | other m => exact ⟨"Failed to fetch places: " ++ m, rfl⟩

/-- C2: all-or-nothing fan-out.  For any completion order of the per-category
futures, if some requested (effective) category's fetch fails, `fetch_places`
fails with an `OverpassError` — the `Except.error` result carries no records,
so no partial result set is observable, regardless of which other category
fetches had already completed. -/
theorem c2_all_or_nothing_fanout (callOv : String → Except PyErr OvData)
    (fetchPage : String → Option (ℕ × String)) (settings : FetchSettings)
    (lat lon : ℚ) (radius_m : ℤ) (categories : Option (List String))
    (enableEmail : Bool) (completionOrder : List String) (c : String) (e : PyErr)
    (hperm : completionOrder.Perm (effectiveCategories categories))
    (hc : c ∈ effectiveCategories categories)
    (he : fetchCategory callOv lat lon radius_m c = .error e) :
    ∃ m, fetchPlaces callOv fetchPage settings lat lon radius_m categories
      enableEmail completionOrder = .error (.overpass m) := by
  have hne : ¬ (effectiveCategories categories).isEmpty = true := by
    cases hcat : effectiveCategories categories with
    | nil => rw [hcat] at hc; exact absurd hc (List.not_mem_nil c)
    | cons a as => simp
  have hco : c ∈ completionOrder := hperm.mem_iff.mpr hc
  obtain ⟨e', he'⟩ := fanOut_err_of_mem (fetchCategory callOv lat lon radius_m)
    completionOrder [] c hco e he
  rcases hsplit : fanOut (fetchCategory callOv lat lon radius_m) completionOrder [] none
    with ⟨records, err⟩
  rw [hsplit] at he'
  simp only at he'
  subst he'
  obtain ⟨m, hm⟩ := wrapFetchErr_overpass e'
  refine ⟨m, ?_⟩
  simp only [fetchPlaces, if_neg hne, hsplit, hm]

/-- C2 witness: both categories' mirrors are down; the search fails whole with
an `OverpassError` for the concrete completion order. -/
theorem c2_all_or_nothing_fanout_witness :
    ∃ m, fetchPlaces (fun _ => .error (.overpass "down")) (fun _ => none) ⟨1, false⟩
      0 0 100 (some ["school", "hotel"]) false ["school", "hotel"]
      = .error (.overpass m) :=
  c2_all_or_nothing_fanout (fun _ => .error (.overpass "down")) (fun _ => none) ⟨1, false⟩
    0 0 100 (some ["school", "hotel"]) false ["school", "hotel"] "school" (.overpass "down")
    (by decide) (by decide) rfl

/-! ## Claim C10: category filtering -/

/-- `fetch_places` only depends on the category argument through the
effective category list. -/
theorem fetchPlaces_congr (callOv : String → Except PyErr OvData)
    (fetchPage : String → Option (ℕ × String)) (settings : FetchSettings)
    (lat lon : ℚ) (radius_m : ℤ) (cats1 cats2 : Option (List String))
    (enableEmail : Bool) (completionOrder : List String)
    (h : effectiveCategories cats1 = effectiveCategories cats2) :
    fetchPlaces callOv fetchPage settings lat lon radius_m cats1 enableEmail completionOrder
      = fetchPlaces callOv fetchPage settings lat lon radius_m cats2 enableEmail
        completionOrder := by
  simp only [fetchPlaces, h]

/-- C10 (amended): a falsy categories argument (absent or the empty list) is
replaced by the full default category set — an empty list does NOT yield an
immediate empty result; a nonempty list all of whose elements are unsupported
yields `ok []` for every mirror oracle (no query is consulted) without
raising; and unsupported names in a mixed list are silently dropped. -/
theorem c10_unsupported_categories (callOv : String → Except PyErr OvData)
    (fetchPage : String → Option (ℕ × String)) (settings : FetchSettings)
    (lat lon : ℚ) (radius_m : ℤ) (enableEmail : Bool)
    (completionOrder : List String) (cats : List String) :
    (effectiveCategories (some []) = effectiveCategories none ∧
      effectiveCategories none = ["school", "college", "hospital", "hotel"]) ∧
    (¬ cats = [] → (∀ c ∈ cats, isSupportedCategory c = false) →
      fetchPlaces callOv fetchPage settings lat lon radius_m (some cats) enableEmail
        completionOrder = .ok []) ∧
    (¬ cats.filter isSupportedCategory = [] →
      fetchPlaces callOv fetchPage settings lat lon radius_m (some cats) enableEmail
        completionOrder
        = fetchPlaces callOv fetchPage settings lat lon radius_m
            (some (cats.filter isSupportedCategory)) enableEmail completionOrder) := by
  have heff : ∀ l : List String, ¬ l = [] →
      effectiveCategories (some l) = l.filter isSupportedCategory := by
    intro l hl
    cases l with
    | nil => exact absurd rfl hl
    | cons a as => rfl
  refine ⟨⟨rfl, rfl⟩, fun hne hall => ?_, fun hfil => ?_⟩
  · have hempty : effectiveCategories (some cats) = [] := by
      rw [heff cats hne]
      exact List.filter_eq_nil_iff.mpr (fun a ha => by simp [hall a ha])
    simp only [fetchPlaces, hempty, List.isEmpty_nil, if_true]
  · have hne : ¬ cats = [] := by
      intro h
      rw [h] at hfil
      exact hfil rfl
    have hne2 : ¬ cats.filter isSupportedCategory = [] := hfil
    apply fetchPlaces_congr
    rw [heff cats hne, heff _ hne2, List.filter_filter]
    simp

/-- C10 witness: a list of only unsupported names returns `ok []` even though
every mirror call would fail; unsupported names in a mixed list are dropped,
giving the same result as the supported sublist. -/
theorem c10_unsupported_categories_witness :
    fetchPlaces (fun _ => .error (.overpass "down")) (fun _ => none) ⟨1, false⟩ 0 0 100
        (some ["park"]) false [] = .ok [] ∧
    fetchPlaces (fun _ => .error (.overpass "down")) (fun _ => none) ⟨1, false⟩ 0 0 100
        (some ["park", "hotel"]) false ["hotel"]
      = fetchPlaces (fun _ => .error (.overpass "down")) (fun _ => none) ⟨1, false⟩ 0 0 100
        (some (List.filter isSupportedCategory ["park", "hotel"])) false ["hotel"] := by
  constructor
  · exact (c10_unsupported_categories (fun _ => .error (.overpass "down")) (fun _ => none)
      ⟨1, false⟩ 0 0 100 false [] ["park"]).2.1 (by decide) (by decide)
  · exact (c10_unsupported_categories (fun _ => .error (.overpass "down")) (fun _ => none)
      ⟨1, false⟩ 0 0 100 false ["hotel"] ["park", "hotel"]).2.2 (by decide)

/-- C10 counterexample: the claim as stated is false on the code — an empty
category list is falsy in Python and is replaced by the full default set, so
with all mirrors failing `fetch_places` raises rather than returning `[]`. -/
theorem c10_unsupported_categories_counterexample :
    ¬ fetchPlaces (fun _ => .error (.overpass "down")) (fun _ => none) ⟨1, false⟩
        0 0 100 (some []) false ["school", "college", "hospital", "hotel"] = .ok [] := by
  have h : fetchPlaces (fun _ => .error (.overpass "down")) (fun _ => none) ⟨1, false⟩
      0 0 100 (some []) false ["school", "college", "hospital", "hotel"]
      = .error (.overpass "down") := rfl
  rw [h]
  simp

/-! ## Claim C8: distance filtering -/

/-- The haversine distance from a point to itself at the origin is zero. -/
theorem haversineDistM_zero : haversineDistM 0 0 0 0 = 0 := by
  unfold haversineDistM radiansR atan2R
  norm_num [Real.sin_zero, Real.cos_zero, Real.sqrt_zero, Real.sqrt_one, Real.arctan_zero]

/-- C8: a normalized record passes the distance filter iff it came from the
input, both its coordinates are present, and its haversine distance (mean
Earth radius 6 371 000 m) from the query point is at most
`radius_m * distance_tolerance_factor`.  In particular a record at distance
exactly `radius_m * tol` is kept and any record strictly beyond it is
dropped. -/
theorem c8_distance_filtering (lat lon : ℚ) (radius_m : ℤ) (tol : ℝ)
    (recs : List PlaceRec) (r : PlaceRec) :
    r ∈ distFilter lat lon radius_m tol recs ↔
      (r ∈ recs ∧ r.lat ≠ none ∧ r.lon ≠ none ∧
        haversineDistM (lat : ℝ) (lon : ℝ) ((r.lat.getD 0 : ℚ) : ℝ) ((r.lon.getD 0 : ℚ) : ℝ)
          ≤ (radius_m : ℝ) * tol) := by
  rw [distFilter, List.mem_filter]
  constructor
  · rintro ⟨hmem, hp⟩
    have hk : keepByDistance lat lon radius_m tol r :=
      @of_decide_eq_true _ (Classical.propDecidable _) hp
    exact ⟨hmem, hk.1, hk.2.1, hk.2.2⟩
  · rintro ⟨hmem, h1, h2, h3⟩
    exact ⟨hmem, @decide_eq_true _ (Classical.propDecidable _) ⟨h1, h2, h3⟩⟩

/-- C8 witness: with query point `(0, 0)`, radius 100 and tolerance 1, a
record located exactly at the query point (distance 0) is kept by the
filter. -/
theorem c8_distance_filtering_witness :
    (⟨"node/1", "school", some "A", none, none, none, "", some 0, some 0, []⟩ : PlaceRec)
      ∈ distFilter 0 0 100 1
        [⟨"node/1", "school", some "A", none, none, none, "", some 0, some 0, []⟩] := by
  apply (c8_distance_filtering 0 0 100 1 _ _).mpr
  refine ⟨List.mem_singleton_self _, by simp, by simp, ?_⟩
  simp only [Option.getD_some, Rat.cast_zero, Int.cast_ofNat, haversineDistM_zero]
  norm_num

/-! ## Claim C7: retained-record invariant -/

/-- Every record accumulated by the fan-out loop came from the accumulator or
from some category fetch that returned `ok`. -/
theorem fanOut_mem (f : String → Except PyErr (List PlaceRec)) :
    ∀ (order : List String) (acc : List PlaceRec) (err : Option PyErr) (r : PlaceRec),
    r ∈ (fanOut f order acc err).1 →
    r ∈ acc ∨ ∃ c ∈ order, ∃ rs, f c = .ok rs ∧ r ∈ rs
  | [], _, _, _ => fun h => Or.inl h
  | c0 :: rest, acc, err, r => by
      cases err with
      | some e =>
          rw [fanOut]
          intro h
          rcases fanOut_mem f rest acc (some e) r h with h1 | ⟨c, hc, rs, hrs, hr⟩
          · exact Or.inl h1
          · exact Or.inr ⟨c, List.mem_cons_of_mem _ hc, rs, hrs, hr⟩
      | none =>
          rw [fanOut]
          cases hf : f c0 with
          | ok rs0 =>
              intro h
              rcases fanOut_mem f rest (acc ++ rs0) none r h with h1 | ⟨c, hc, rs, hrs, hr⟩
              · rcases List.mem_append.mp h1 with h2 | h2
                · exact Or.inl h2
                · exact Or.inr ⟨c0, List.mem_cons_self _ _, rs0, hf, h2⟩
              · exact Or.inr ⟨c, List.mem_cons_of_mem _ hc, rs, hrs, hr⟩
          | error e =>
              intro h
              rcases fanOut_mem f rest acc (some e) r h with h1 | ⟨c, hc, rs, hrs, hr⟩
              · exact Or.inl h1
              · exact Or.inr ⟨c, List.mem_cons_of_mem _ hc, rs, hrs, hr⟩

/-- Every record of a successful `_fetch_category` call passed `keepRec`. -/
theorem keepRec_of_fetchCategory_ok (callOv : String → Except PyErr OvData)
    (lat lon : ℚ) (radius_m : ℤ) (c : String) (rs : List PlaceRec) (x : PlaceRec)
    (hok : fetchCategory callOv lat lon radius_m c = .ok rs) (hx : x ∈ rs) :
    keepRec x = true := by
  cases hd : defaultCategoriesGet c with
  | none =>
      simp only [fetchCategory, hd] at hok
      exact absurd hok (by simp)
  | some spec =>
      simp only [fetchCategory, hd] at hok
      cases hcall : callOv (buildAreaQuery lat lon radius_m spec.key spec.values) with
      | ok data =>
          rw [hcall] at hok
          simp only [Except.map] at hok
          have heq := Except.ok.inj hok
          rw [← heq] at hx
          exact (List.mem_filter.mp hx).2
      | error e =>
          rw [hcall] at hok
          exact absurd hok (by simp [Except.map])

/-- Unpacking `keepRec`. -/
theorem keepRec_spec (x : PlaceRec) (h : keepRec x = true) :
    truthyOptStr x.name = true ∧ x.lat ≠ none ∧ x.lon ≠ none := by
  rw [keepRec] at h
  simp only [Bool.and_eq_true] at h
  exact ⟨h.1.1, Option.isSome_iff_ne_none.mp h.1.2, Option.isSome_iff_ne_none.mp h.2⟩

/-- A truthy optional rational is present. -/
theorem truthyOptQ_ne_none (o : Option ℚ) (h : truthyOptQ o = true) : o ≠ none := by
  cases o with
  | none => simp [truthyOptQ] at h
  | some q => simp

/-- `enrichOne` only ever touches the email field. -/
theorem enrichOne_preserves (fp : String → Option (ℕ × String)) (r : PlaceRec) :
    (enrichOne fp r).name = r.name ∧ (enrichOne fp r).lat = r.lat ∧
      (enrichOne fp r).lon = r.lon := by
  rw [enrichOne]
  split
  · split <;> simp
  · simp

/-- Invariant core for the coordinate-scoped pipeline: every record in the
post-dedupe set of a completed fan-out passed `keepRec`. -/
theorem fetchPlaces_core_inv (callOv : String → Except PyErr OvData)
    (lat lon : ℚ) (radius_m : ℤ) (tol : ℝ) (completionOrder : List String)
    (records : List PlaceRec)
    (hsplit : fanOut (fetchCategory callOv lat lon radius_m) completionOrder [] none
      = (records, none))
    (r' : PlaceRec) (hr' : r' ∈ dedupe (distFilter lat lon radius_m tol records)) :
    truthyOptStr r'.name = true ∧ r'.lat ≠ none ∧ r'.lon ≠ none := by
  have h1 : r' ∈ distFilter lat lon radius_m tol records :=
    (dedupeAux_sublist _ []).subset hr'
  rw [distFilter] at h1
  have h2 : r' ∈ records := (List.mem_filter.mp h1).1
  have h3 := fanOut_mem (fetchCategory callOv lat lon radius_m) completionOrder [] none r'
    (by rw [hsplit]; exact h2)
  rcases h3 with h4 | ⟨c, _, rs, hrs, hr⟩
  · exact absurd h4 (List.not_mem_nil r')
  · exact keepRec_spec r' (keepRec_of_fetchCategory_ok callOv lat lon radius_m c rs r' hrs hr)

/-- Invariant for `fetch_places`: a successful result only contains records
with present `name`, `lat` and `lon`. -/
theorem fetchPlaces_ok_inv (callOv : String → Except PyErr OvData)
    (fetchPage : String → Option (ℕ × String)) (settings : FetchSettings)
    (lat lon : ℚ) (radius_m : ℤ) (categories : Option (List String))
    (enableEmail : Bool) (completionOrder : List String) (recs : List PlaceRec)
    (r : PlaceRec)
    (hok : fetchPlaces callOv fetchPage settings lat lon radius_m categories
      enableEmail completionOrder = .ok recs) (hr : r ∈ recs) :
    truthyOptStr r.name = true ∧ r.lat ≠ none ∧ r.lon ≠ none := by
  simp only [fetchPlaces] at hok
  by_cases hemp : (effectiveCategories categories).isEmpty = true
  · rw [if_pos hemp] at hok
    have := Except.ok.inj hok
    rw [← this] at hr
    exact absurd hr (List.not_mem_nil r)
  · rw [if_neg hemp] at hok
    rcases hsplit : fanOut (fetchCategory callOv lat lon radius_m) completionOrder [] none
      with ⟨records, err⟩
    rw [hsplit] at hok
    cases err with
    | some e => exact absurd hok (by simp)
    | none =>
        have hrecs := Except.ok.inj hok
        rw [← hrecs] at hr
        by_cases henr : (enableEmail && settings.enableWebsiteEmailDiscovery) = true
        · rw [if_pos henr] at hr
          rcases List.mem_map.mp hr with ⟨r', hr', heq⟩
          have hp := fetchPlaces_core_inv callOv lat lon radius_m
            settings.distanceToleranceFactor completionOrder records hsplit r' hr'
          have hpres := enrichOne_preserves fetchPage r'
          rw [← heq, hpres.1, hpres.2.1, hpres.2.2]
          exact hp
        · rw [if_neg henr] at hr
          exact fetchPlaces_core_inv callOv lat lon radius_m
            settings.distanceToleranceFactor completionOrder records hsplit r hr

/-- Invariant for `fetch_california_places`: a successful result only contains
records with present (indeed truthy) `name`, `lat` and `lon`. -/
theorem fetchCalifornia_ok_inv (callOv : String → Except PyErr OvData)
    (fetchPage : String → Option (ℕ × String)) (settings : FetchSettings)
    (enableEmail : Bool) (recs : List PlaceRec) (r : PlaceRec)
    (hok : fetchCaliforniaPlaces callOv fetchPage settings enableEmail = .ok recs)
    (hr : r ∈ recs) :
    truthyOptStr r.name = true ∧ r.lat ≠ none ∧ r.lon ≠ none := by
  rw [fetchCaliforniaPlaces] at hok
  cases hraw : fetchCaliforniaRaw callOv defaultCategories with
  | error e =>
      rw [hraw] at hok
      exact absurd hok (by simp [Except.map])
  | ok records =>
      rw [hraw] at hok
      simp only [Except.map] at hok
      have hrecs := Except.ok.inj hok
      rw [← hrecs] at hr
      have hcore : ∀ r', r' ∈ dedupe (records.filter (fun x =>
          truthyOptStr x.name && truthyOptQ x.lat && truthyOptQ x.lon)) →
          truthyOptStr r'.name = true ∧ r'.lat ≠ none ∧ r'.lon ≠ none := by
        intro r' hr'
        have h1 := (dedupeAux_sublist _ []).subset hr'
        have h2 := (List.mem_filter.mp h1).2
        simp only [Bool.and_eq_true] at h2
        exact ⟨h2.1.1, truthyOptQ_ne_none _ h2.1.2, truthyOptQ_ne_none _ h2.2⟩
      by_cases henr : (enableEmail && settings.enableWebsiteEmailDiscovery) = true
      · rw [if_pos henr] at hr
        rcases List.mem_map.mp hr with ⟨r', hr', heq⟩
        have hp := hcore r' hr'
        have hpres := enrichOne_preserves fetchPage r'
        rw [← heq, hpres.1, hpres.2.1, hpres.2.2]
        exact hp
      · rw [if_neg henr] at hr
        exact hcore r hr

/-- C7: every `PlaceRec` in a successful result of the coordinate-scoped
search (`fetch_places`) and of the statewide search
(`fetch_california_places`) has `name`, `lat` and `lon` all present (the name
even truthy); a normalized record missing any of the three is never
retained. -/
theorem c7_retained_record_invariant (callOv : String → Except PyErr OvData)
    (fetchPage : String → Option (ℕ × String)) (settings : FetchSettings)
    (lat lon : ℚ) (radius_m : ℤ) (categories : Option (List String))
    (enableEmail enableEmail2 : Bool) (completionOrder : List String)
    (recs recs2 : List PlaceRec) (r : PlaceRec) :
    (fetchPlaces callOv fetchPage settings lat lon radius_m categories enableEmail
        completionOrder = .ok recs → r ∈ recs →
      truthyOptStr r.name = true ∧ r.lat ≠ none ∧ r.lon ≠ none) ∧
    (fetchCaliforniaPlaces callOv fetchPage settings enableEmail2 = .ok recs2 →
      r ∈ recs2 →
      truthyOptStr r.name = true ∧ r.lat ≠ none ∧ r.lon ≠ none) :=
  ⟨fun hok hr => fetchPlaces_ok_inv callOv fetchPage settings lat lon radius_m categories
      enableEmail completionOrder recs r hok hr,
   fun hok hr => fetchCalifornia_ok_inv callOv fetchPage settings enableEmail2 recs2 r
      hok hr⟩

/-- Decidable equality on `Except` results (not derived by core). -/
instance {e a : Type} [DecidableEq e] [DecidableEq a] : DecidableEq (Except e a) :=
  fun x y =>
    match x, y with
    | Except.ok u, Except.ok v =>
        if h : u = v then .isTrue (congrArg Except.ok h)
        else .isFalse (fun he => h (Except.ok.inj he))
    | Except.error u, Except.error v =>
        if h : u = v then .isTrue (congrArg Except.error h)
        else .isFalse (fun he => h (Except.error.inj he))
    | Except.ok _, Except.error _ => .isFalse (fun he => Except.noConfusion he)
    | Except.error _, Except.ok _ => .isFalse (fun he => Except.noConfusion he)

/-- A concrete point element named `"A"` at the origin. -/
def wEl : Element :=
  ⟨some "node", some 1, some 0, some 0, none, [("name", "A")]⟩

/-- A concrete point element named `"B"` at `(1, 1)` (truthy coordinates). -/
def wElC : Element :=
  ⟨some "node", some 2, some 1, some 1, none, [("name", "B")]⟩

/-- A complete concrete run of `fetch_places`: one category, one in-radius
record at the query point. -/
theorem fetchPlaces_concrete_run :
    fetchPlaces (fun _ => .ok ⟨[wEl]⟩) (fun _ => none) ⟨1, false⟩ 0 0 100
        (some ["school"]) false ["school"]
      = .ok [normalizeRecord wEl "school"] := by
  have h1 : fanOut (fetchCategory (fun _ => .ok ⟨[wEl]⟩) 0 0 100) ["school"] [] none
      = ([normalizeRecord wEl "school"], none) := by decide
  have hkeep : keepByDistance 0 0 100 1 (normalizeRecord wEl "school") := by
    refine ⟨by decide, by decide, ?_⟩
    have hlat : (normalizeRecord wEl "school").lat.getD 0 = 0 := by decide
    have hlon : (normalizeRecord wEl "school").lon.getD 0 = 0 := by decide
    rw [hlat, hlon]
    simp only [Rat.cast_zero]
    rw [haversineDistM_zero]
    norm_num
  have h2 : distFilter 0 0 100 1 [normalizeRecord wEl "school"]
      = [normalizeRecord wEl "school"] := by
    rw [distFilter]
    simp only [List.filter, @decide_eq_true _ (Classical.propDecidable _) hkeep]
  have h3 : dedupe [normalizeRecord wEl "school"] = [normalizeRecord wEl "school"] := by
    decide
  simp only [fetchPlaces]
  rw [if_neg (by decide), h1]
  simp only [Bool.false_and, Bool.and_false, Bool.false_eq_true, if_false]
  rw [h2, h3]

set_option maxRecDepth 40000 in
/-- A complete concrete run of `fetch_california_places`: only the school
query returns an element. -/
theorem fetchCalifornia_concrete_run :
    fetchCaliforniaPlaces
        (fun q => if q = buildCaliforniaQuery "amenity" ["school"]
          then .ok ⟨[wElC]⟩ else .ok ⟨[]⟩)
        (fun _ => none) ⟨1, false⟩ false
      = .ok [normalizeRecord wElC "school"] := by
  decide

/-- C7 witness: the single record of a concrete coordinate-scoped run and the
single record of a concrete statewide run each have `name`, `lat` and `lon`
present. -/
theorem c7_retained_record_invariant_witness :
    (truthyOptStr (normalizeRecord wEl "school").name = true ∧
      (normalizeRecord wEl "school").lat ≠ none ∧
      (normalizeRecord wEl "school").lon ≠ none) ∧
    (truthyOptStr (normalizeRecord wElC "school").name = true ∧
      (normalizeRecord wElC "school").lat ≠ none ∧
      (normalizeRecord wElC "school").lon ≠ none) := by
  constructor
  · exact (c7_retained_record_invariant (fun _ => .ok ⟨[wEl]⟩) (fun _ => none) ⟨1, false⟩
      0 0 100 (some ["school"]) false false ["school"]
      [normalizeRecord wEl "school"] [] (normalizeRecord wEl "school")).1
      fetchPlaces_concrete_run (List.mem_singleton_self _)
  · exact (c7_retained_record_invariant
      (fun q => if q = buildCaliforniaQuery "amenity" ["school"]
        then .ok ⟨[wElC]⟩ else .ok ⟨[]⟩)
      (fun _ => none) ⟨1, false⟩ 0 0 100 (some ["school"]) false false ["school"]
      [] [normalizeRecord wElC "school"] (normalizeRecord wElC "school")).2
      fetchCalifornia_concrete_run (List.mem_singleton_self _)
